import Mathlib

/-!
# Verification of the whale-tracking / copy-trading core

A shallow embedding, in Lean 4, of the stateful core of the repository:

* `whale_tracker.py` — the `WhaleTracker` class: deduplication of fetched
  trades by transaction hash, a bounded most-recent-first history buffer,
  display formatting of raw trades (`process_trade`), and the blocking
  monitor loop (`run_monitor`).
* `polymarket/copy_trading.py` — the `CopyTrading` class: the follow
  registry, the copy decision (`should_copy_trade`), sizing
  (`calculate_copy_size`) and dispatch (`copy_trade`), and the per-trader
  monitor loop (`monitor_trader`).

Python `float` values are modelled as rationals (`ℚ`); operations that can
raise a Python exception return `Option` (with `none` for "raises") or
carry the error as data.  Dict fields that may be absent are `Option`
fields; `d.get(k, default)` is `Option.getD`.  Network calls
(`fetch_whale_trades`, `data_api.get_trades`, `clob.place_order`) are
external collaborators: the fetched batch, respectively the submission
outcome, is passed to the embedded function as an explicit argument.
Mutable Python dict objects held by reference (the follow records) are
modelled with an explicit store indexed by addresses, so that aliasing
between `self.following` and the list returned by `get_following_list`
is visible.
-/

namespace PolyCore

/-- A Python value as it can occur in a field of an inbound JSON trade
record: a number, a string, or `None`.  Absence of the key is modelled
one level up, by `Option PyVal`. -/
inductive PyVal where
  | num (q : ℚ)
  | str (s : String)
  | pynone
  deriving Repr, DecidableEq

/-- Numeric value of a list of decimal digit characters, most significant
first (`foldl acc*10 + digit`). -/
def digitsToNat (cs : List Char) : Nat :=
  cs.foldl (fun a c => a * 10 + (c.toNat - 48)) 0

/-- Model of Python `float(s)` on a string, restricted to plain decimal
literals: an optional sign, then digits with at most one decimal point and
at least one digit.  Strings outside this fragment (such as `"abc"`)
yield `none`, i.e. `float` raises `ValueError`.  (Python's `float` also
accepts exponents, `inf`/`nan` and surrounding whitespace; none of the
properties below depend on those inputs.) -/
def strFloat (s : String) : Option ℚ :=
  let cs := s.data
  let (sign, body) : ℚ × List Char :=
    match cs with
    | '-' :: rest => (-1, rest)
    | '+' :: rest => (1, rest)
    | _ => (1, cs)
  match body.splitOn '.' with
  | [intPart] =>
      if intPart ≠ [] ∧ intPart.all Char.isDigit then
        some (sign * digitsToNat intPart)
      else none
  | [intPart, fracPart] =>
      if (intPart ≠ [] ∨ fracPart ≠ []) ∧ intPart.all Char.isDigit ∧
          fracPart.all Char.isDigit then
        some (sign * (digitsToNat intPart +
          (digitsToNat fracPart : ℚ) / (10 ^ fracPart.length)))
      else none
  | _ => none

/-- Model of Python `float(v)` on a field value: numbers pass through,
strings are parsed (`ValueError` on failure), `None` raises `TypeError`. -/
def pyFloat : PyVal → Option ℚ
  | .num q => some q
  | .str s => strFloat s
  | .pynone => none

/-- `float(trade.get(key, 0))`: an absent key defaults to `0`; a present
value goes through `pyFloat` and may raise. -/
def getNum (field : Option PyVal) : Option ℚ :=
  pyFloat (field.getD (.num 0))

/-- `s or t` for two Python string options: the first truthy (present and
non-empty) value, if any. -/
def firstTruthy (s : Option String) : Option String :=
  match s with
  | some v => if v = "" then none else some v
  | none => none

/-- Model of Python `str.upper()`: uppercase each character.  (Defined
via the character list rather than `String.toUpper` so that it reduces
inside the kernel; the two agree.) -/
def pyUpper (s : String) : String := String.mk (s.data.map Char.toUpper)

/-! ## `whale_tracker.py` : raw trades and `process_trade` -/

/-- A raw trade record as fetched by `WhaleTracker.fetch_whale_trades`,
with exactly the keys `process_trade` and `check_for_new_whales` read.
`none` means the key is absent from the dict. -/
structure WTrade where
  transactionHash : Option String := none
  timestamp : Option Int := none
  title : Option String := none
  slug : Option String := none
  eventSlug : Option String := none
  proxyWallet : Option String := none
  name : Option String := none
  pseudonym : Option String := none
  side : Option String := none
  outcome : Option String := none
  outcomeIndex : Option Int := none
  icon : Option String := none
  conditionId : Option String := none
  asset : Option String := none
  bio : Option String := none
  profileImage : Option String := none
  size : Option PyVal := none
  price : Option PyVal := none
  deriving Repr, DecidableEq

/-- `f"{wallet[:6]}...{wallet[-4:]}"` — Python slices are tolerant of
short strings. -/
def abbrevWallet (w : String) : String :=
  String.mk (w.data.take 6) ++ "..." ++
    String.mk (w.data.drop (w.data.length - 4))

/-- The trader display name computed inside `process_trade`
(whale_tracker.py lines 84-88).  Python parses
`a or b or c if cond else d` as `(a or b or c) if cond else d`, so the
whole or-chain is guarded by `wallet != 'Unknown'`. -/
def trader_name_of (trade : WTrade) : String :=
  let wallet := trade.proxyWallet.getD "Unknown"
  if wallet ≠ "Unknown" then
    match firstTruthy trade.name with
    | some n => n
    | none =>
      match firstTruthy trade.pseudonym with
      | some p => p
      | none => abbrevWallet wallet
  else "Unknown"

/-- The formatted whale trade built by `process_trade` (the dict literal
at whale_tracker.py lines 98-117). -/
structure Whale where
  transactionHash : String
  timestamp : Int
  market : String
  marketSlug : String
  eventSlug : String
  side : String
  outcome : String
  outcomeIndex : Int
  size : ℚ
  price : ℚ
  value : ℚ
  trader : String
  wallet : String
  conditionId : String
  assetId : String
  iconUrl : String
  traderBio : String
  traderProfileImage : String
  deriving Repr, DecidableEq

/-- `WhaleTracker.process_trade` (whale_tracker.py lines 61-117).
`none` means the call raises (the `float(...)` coercions are the only
fallible steps). -/
def process_trade (trade : WTrade) : Option Whale := do
  let size ← getNum trade.size
  let price ← getNum trade.price
  let value := size * price
  let market_title := trade.title.getD "Unknown Market"
  let market_slug := (firstTruthy trade.slug).getD (trade.eventSlug.getD "")
  let wallet := trade.proxyWallet.getD "Unknown"
  let trader_name := trader_name_of trade
  let side := pyUpper (trade.side.getD "")
  let outcome := trade.outcome.getD "Unknown"
  let outcome_index := trade.outcomeIndex.getD 0
  let icon_url := trade.icon.getD ""
  some {
    transactionHash := trade.transactionHash.getD ""
    timestamp := trade.timestamp.getD 0
    market := market_title
    marketSlug := market_slug
    eventSlug := trade.eventSlug.getD ""
    side := side
    outcome := outcome
    outcomeIndex := outcome_index
    size := size
    price := price
    value := value
    trader := trader_name
    wallet := wallet
    conditionId := trade.conditionId.getD ""
    assetId := trade.asset.getD ""
    iconUrl := icon_url
    traderBio := trade.bio.getD ""
    traderProfileImage := trade.profileImage.getD "" }

/-! ## `WhaleTracker` state and `check_for_new_whales` -/

/-- The mutable state of a `WhaleTracker` instance: the seen-transaction
set (a Python `set`, modelled as a duplicate-free insertion list queried
by membership), the history buffer, and the `max_history` bound. -/
structure WTState where
  seen_transactions : List String
  whale_trades : List Whale
  max_history : Nat
  deriving Repr, DecidableEq

/-- `WhaleTracker.__init__`: empty seen set and history, `max_history`
is fixed at 100 in the source but kept as a parameter so the history
bound can be stated for any value. -/
def mkTracker (max_history : Nat) : WTState :=
  { seen_transactions := [], whale_trades := [], max_history := max_history }

/-- `self.seen_transactions.add(tx)` on the list model of a set. -/
def addSeen (seen : List String) (tx : String) : List String :=
  if tx ∈ seen then seen else tx :: seen

/-- History trimming (whale_tracker.py lines 146-147):
`if len(self.whale_trades) > self.max_history:
self.whale_trades = self.whale_trades[:self.max_history]`. -/
def trimHistory (l : List Whale) (maxH : Nat) : List Whale :=
  if l.length > maxH then l.take maxH else l

/-- One iteration of the `for trade in trades` loop of
`check_for_new_whales` (whale_tracker.py lines 131-147), threading the
tracker state and the `new_whales` accumulator. -/
def cfnwStep (p : WTState × List Whale) (trade : WTrade) :
    Option (WTState × List Whale) := do
  let (st, acc) := p
  let tx_hash := trade.transactionHash.getD ""
  if tx_hash ≠ "" ∧ tx_hash ∉ st.seen_transactions then
    let processed ← process_trade trade
    let st' : WTState :=
      { st with
        seen_transactions := addSeen st.seen_transactions tx_hash
        whale_trades := trimHistory (processed :: st.whale_trades) st.max_history }
    some (st', acc ++ [processed])
  else
    some (st, acc)

/-- `WhaleTracker.check_for_new_whales` (whale_tracker.py lines 119-149),
with the batch returned by `fetch_whale_trades` passed explicitly.
Returns the new state and the list of newly discovered whales; `none`
when an iteration raises. -/
def check_for_new_whales (st : WTState) (trades : List WTrade) :
    Option (WTState × List Whale) :=
  trades.foldlM cfnwStep (st, [])

/-- `WhaleTracker.get_recent_whales` (whale_tracker.py lines 176-186). -/
def get_recent_whales (st : WTState) (limit : Nat) : List Whale :=
  st.whale_trades.take limit

/-! ## `polymarket/copy_trading.py` : settings, trades, decisions -/

/-- The merged copy-trading settings dict.  The field defaults are the
`default_settings` literal of `follow_trader` (copy_trading.py lines
52-61); `follow_trader` merges user overrides over them key by key, so
a stored settings dict always has every key and this structure models
it post-merge. -/
structure CopySettings where
  max_position_size : ℚ := 100
  copy_percentage : ℚ := 10
  max_total_exposure : ℚ := 1000
  markets_to_copy : Option (List String) := none
  markets_to_exclude : List String := []
  min_trader_confidence : ℚ := 10
  auto_exit : Bool := true
  enabled : Bool := true
  deriving Repr, DecidableEq

/-- A trade record as read by `should_copy_trade`, `calculate_copy_size`
and `copy_trade`: the `market` key holds a nested dict with a `slug`
key (`trade.get('market', {}).get('slug', '')`). -/
structure CTrade where
  size : Option PyVal := none
  price : Option PyVal := none
  marketSlug : Option String := none
  asset : Option String := none
  side : Option String := none
  timestamp : Option Int := none
  deriving Repr, DecidableEq

/-- `trade.get('market', {}).get('slug', '')`. -/
def CTrade.slugOf (t : CTrade) : String := t.marketSlug.getD ""

/-- `CopyTrading.should_copy_trade` (copy_trading.py lines 154-185).
`none` means the call raises (the two `float(...)` coercions are the
only fallible steps; they run before the market filters). -/
def should_copy_trade (trade : CTrade) (settings : CopySettings) :
    Option Bool := do
  if ¬ settings.enabled then
    return false
  let s ← getNum trade.size
  let p ← getNum trade.price
  let trade_size := s * p
  if trade_size < settings.min_trader_confidence then
    return false
  let market_slug := trade.slugOf
  let blockedByAllowList :=
    match settings.markets_to_copy with
    | some l => decide (l ≠ []) && decide (market_slug ∉ l)
    | none => false
  if blockedByAllowList then
    return false
  if market_slug ∈ settings.markets_to_exclude then
    return false
  return true

/-- `CopyTrading.calculate_copy_size` (copy_trading.py lines 187-208):
`min(size * copy_percentage / 100, max_position_size)`, with no lower
clamp.  `none` means the `float(...)` coercion of the size raises. -/
def calculate_copy_size (trade : CTrade) (settings : CopySettings) :
    Option ℚ := do
  let original_size ← getNum trade.size
  let copy_percentage := settings.copy_percentage / 100
  let copy_size := original_size * copy_percentage
  let max_size := settings.max_position_size
  return min copy_size max_size

/-! ## `CopyTrading` registry state, with explicit aliasing

`self.following` maps a wallet to a mutable dict object.
`list(self.following.values())` copies the list container but not the
dict objects, so registry and caller share them.  The state keeps the
dicts in a `store` addressed by allocation index, and `following` maps
wallets to addresses. -/

/-- The per-trader follow record dict created by `follow_trader`
(copy_trading.py lines 67-73). -/
structure FollowData where
  trader_wallet : String
  settings : CopySettings
  started_at : Int
  total_copied_trades : Nat
  total_volume_copied : ℚ
  deriving Repr, DecidableEq

instance : Inhabited FollowData :=
  ⟨{ trader_wallet := "", settings := {}, started_at := 0,
     total_copied_trades := 0, total_volume_copied := 0 }⟩

/-- The mutable state of a `CopyTrading` instance: a heap of follow
record objects and the `self.following` dict from wallets to objects
(here: to addresses into the heap). -/
structure CTState where
  store : List FollowData
  following : List (String × Nat)
  deriving Repr, DecidableEq

/-- The empty registry of `CopyTrading.__init__`. -/
def mkCopyTrading : CTState := { store := [], following := [] }

/-- Dict lookup `self.following[wallet]` / `wallet in self.following`. -/
def lookupAddr (st : CTState) (wallet : String) : Option Nat :=
  (st.following.find? (fun p => p.1 = wallet)).map (·.2)

/-- Dict assignment `self.following[wallet] = record`: replaces the
value at an existing key in place, else appends the new key. -/
def updateFollowing (l : List (String × Nat)) (wallet : String) (addr : Nat) :
    List (String × Nat) :=
  if l.any (fun p => p.1 = wallet) then
    l.map (fun p => if p.1 = wallet then (wallet, addr) else p)
  else l ++ [(wallet, addr)]

/-- The record object a wallet's registry entry points at. -/
def recordOf (st : CTState) (wallet : String) : Option FollowData :=
  (lookupAddr st wallet).bind (fun a => st.store.get? a)

/-- Mutation of the record object at address `a` (a field assignment on
the shared dict). -/
def setRecord (st : CTState) (a : Nat) (r : FollowData) : CTState :=
  { st with store := st.store.set a r }

/-- `CopyTrading.follow_trader` (copy_trading.py lines 30-83), with the
merged settings and the current time passed in.  A fresh record dict is
allocated and bound to the wallet, replacing any previous binding. -/
def follow_trader (st : CTState) (trader_wallet : String)
    (settings : CopySettings) (now : Int) : CTState :=
  let record : FollowData :=
    { trader_wallet := trader_wallet
      settings := settings
      started_at := now
      total_copied_trades := 0
      total_volume_copied := 0 }
  let addr := st.store.length
  { store := st.store ++ [record]
    following := updateFollowing st.following trader_wallet addr }

/-- `CopyTrading.get_following_list` (copy_trading.py lines 112-119):
`list(self.following.values())` — a fresh list whose elements are the
registry's own record objects (addresses), not copies. -/
def get_following_list (st : CTState) : List Nat :=
  st.following.map (·.2)

/-! ## `copy_trade` : dispatch against the order-submission collaborator -/

/-- Outcome of `self.clob.place_order(...)`: a response object, or a
raised exception message. -/
inductive OrderOutcome where
  | ok (resp : String)
  | exn (err : String)
  deriving Repr, DecidableEq

/-- The value `copy_trade` returns when it attempts a copy: the success
dict (lines 259-265) or the failure dict (lines 268-273). -/
inductive CopyResult where
  | success (order : String) (copied_from : String) (original_trade : CTrade)
      (copy_size : ℚ)
  | failure (error : String) (copied_from : String) (original_trade : CTrade)
  deriving Repr, DecidableEq

/-- `CopyTrading.copy_trade` (copy_trading.py lines 210-273).
`placeOrder token_id price size side` is the external submission call;
only it is inside the `try`.  The result is the new state paired with
`none` (Python `None`: not copied) or a `CopyResult`; the outer `none`
means the call itself raises (a failed `float` coercion outside the
`try`). -/
def copy_trade (placeOrder : String → ℚ → ℚ → String → OrderOutcome)
    (st : CTState) (trader_wallet : String) (trade : CTrade) :
    Option (CTState × Option CopyResult) := do
  match lookupAddr st trader_wallet with
  | none => some (st, none)
  | some addr =>
    let follow_data := st.store.getD addr default
    let settings := follow_data.settings
    let sc ← should_copy_trade trade settings
    if ¬ sc then
      return (st, none)
    let copy_size ← calculate_copy_size trade settings
    if copy_size ≤ 0 then
      return (st, none)
    let token_id := trade.asset.getD ""
    let price ← getNum trade.price
    let side := pyUpper (trade.side.getD "BUY")
    match placeOrder token_id price copy_size side with
    | .ok resp =>
        let follow_data' :=
          { follow_data with
            total_copied_trades := follow_data.total_copied_trades + 1
            total_volume_copied :=
              follow_data.total_volume_copied + copy_size * price }
        return (setRecord st addr follow_data',
          some (.success resp trader_wallet trade copy_size))
    | .exn e =>
        return (st, some (.failure e trader_wallet trade))

/-! ## Monitor loops : exception structure

The two polling loops differ in where the exception handler sits:
`WhaleTracker.run_monitor` (whale_tracker.py lines 201-218) has
`try: while True: <cycle>` — the handler is *outside* the loop — while
`CopyTrading.monitor_trader` (copy_trading.py lines 291-314) has
`while ...: try: <cycle> except: log` — the handler is *inside*.  A
cycle body (fetch, per-trade work, callbacks, sleep) is abstracted to
its outcome: it either completes or raises; the loop itself is driven
by a finite trace of such outcomes. -/

/-- The outcome of one cycle body: it runs to completion, or some step
in it (fetch, `format_alert`, the caller-supplied callback, ...) raises. -/
inductive CycleOutcome where
  | ok
  | exn (err : String)
  deriving Repr, DecidableEq

/-- How a monitor loop stands after consuming a finite trace of cycle
outcomes: still looping, or returned after logging an exception. -/
inductive MonitorEnd where
  | running
  | stopped (err : String)
  deriving Repr, DecidableEq

/-- `WhaleTracker.run_monitor` (whale_tracker.py lines 201-218): the
`try` wraps the whole `while True`, so an exception escaping a cycle
body unwinds past the loop into the outer handler, which logs it and
returns.  Yields the loop's standing and the number of cycle bodies
entered. -/
def run_monitor_model : List CycleOutcome → MonitorEnd × Nat
  | [] => (.running, 0)
  | .ok :: rest =>
      let (e, n) := run_monitor_model rest
      (e, n + 1)
  | .exn e :: _ => (.stopped e, 1)

/-- `CopyTrading.monitor_trader` (copy_trading.py lines 291-314): the
`try/except` sits inside the `while`, so an exception in a cycle body is
logged and the loop continues with the next cycle.  (The loop's
`while wallet in self.following` guard is orthogonal to exception flow
and not modelled here.) -/
def monitor_trader_model : List CycleOutcome → MonitorEnd × Nat
  | [] => (.running, 0)
  | _ :: rest =>
      let (e, n) := monitor_trader_model rest
      (e, n + 1)

/-! ## Derived notions used in the statements -/

/-- The transaction identity of a raw trade as `check_for_new_whales`
reads it: `trade.get('transactionHash', '')`. -/
def rawHash (t : WTrade) : String := t.transactionHash.getD ""

/-- The transaction identity carried by a processed whale trade. -/
def whaleHash (w : Whale) : String := w.transactionHash

/-- A sequence of `check_for_new_whales` calls, one per fetched batch,
collecting each call's returned list. -/
def runBatches (st : WTState) : List (List WTrade) → Option (WTState × List (List Whale))
  | [] => some (st, [])
  | b :: bs => do
      let (st', out) ← check_for_new_whales st b
      let (st'', outs) ← runBatches st' bs
      return (st'', out :: outs)

/-- Feeding trades to the tracker one at a time: each trade arrives as
its own fetched batch of size one. -/
def processOneAtATime (st : WTState) : List WTrade → Option WTState
  | [] => some st
  | t :: ts => do
      let (st', _) ← check_for_new_whales st [t]
      processOneAtATime st' ts

/-! ## Concrete inputs for the scenarios and counterexamples -/

/-- The spec's §8 scenario trade: size 100 at price 0.60. -/
def scnTrade : CTrade := { size := some (.num 100), price := some (.num (3/5)) }

/-- The spec's §8 scenario settings: `copy_percentage = 10`,
`max_position_size = 100`, `min_trader_confidence = 10` — exactly the
defaults. -/
def scnSettings : CopySettings := {}

/-- The follow record `follow_trader` creates for wallet `"W"` with the
scenario settings at time 0. -/
def scnRecord : FollowData :=
  { trader_wallet := "W", settings := scnSettings, started_at := 0,
    total_copied_trades := 0, total_volume_copied := 0 }

/-- Registry state after `follow_trader("W", scenario settings)` on a
fresh instance. -/
def scnState : CTState := follow_trader mkCopyTrading "W" scnSettings 0

/-- The registry state after the scenario's successful copy: one trade
copied, volume 10 × 0.60 = 6. -/
def scnStateAfter : CTState :=
  { store := [{ scnRecord with total_copied_trades := 1, total_volume_copied := 6 }]
    following := [("W", 0)] }

/-- A trade whose `size` field holds the non-numeric string `"abc"`. -/
def strSizeCTrade : CTrade := { size := some (.str "abc"), price := some (.num 1) }

/-- A raw whale-feed trade whose `size` field holds `"abc"`. -/
def strSizeWTrade : WTrade := { size := some (.str "abc"), price := some (.num 1) }

/-- The `i`-th trade of the 150-unique-whales scenario: distinct
transaction hash, size 2 at price 7000 (notional 14000). -/
def scnWhale (i : Nat) : WTrade :=
  { transactionHash := some ("t" ++ i.repr)
    size := some (.num 2)
    price := some (.num 7000) }

/-- 150 whale trades with pairwise distinct transaction hashes. -/
def scnWhales150 : List WTrade := (List.range 150).map scnWhale

/-- A raw trade carrying an explicit display name but no wallet. -/
def namedNoWalletTrade : WTrade := { name := some "Alice" }

/-- A raw trade carrying both a display name and a wallet. -/
def namedWalletTrade : WTrade :=
  { name := some "Alice", proxyWallet := some "0x12345678abcd" }

/-- A raw trade carrying a wallet but neither name nor pseudonym. -/
def walletOnlyTrade : WTrade := { proxyWallet := some "0x12345678abcd" }

/-- A small concrete whale-feed trade with hash `"a"`. -/
def wtA : WTrade :=
  { transactionHash := some "a", size := some (.num 3), price := some (.num 5000) }

/-- A small concrete whale-feed trade with hash `"b"`. -/
def wtB : WTrade :=
  { transactionHash := some "b", size := some (.num 4), price := some (.num 6000) }

/-- A large trade whose `transactionHash` key is absent. -/
def wtNoHash : WTrade := { size := some (.num 9), price := some (.num 9000) }

/-- Two fetched batches in which trade `wtA` is delivered three times. -/
def c4Batches : List (List WTrade) := [[wtA, wtA], [wtA, wtB]]

/-- The tracker run over those two batches from a fresh tracker. -/
def c4Run : Option (WTState × List (List Whale)) :=
  runBatches (mkTracker 100) c4Batches

/-- Final tracker state of that run. -/
def c4St : WTState := (c4Run.getD (mkTracker 0, [])).1

/-- Per-call outputs of that run. -/
def c4Outs : List (List Whale) := (c4Run.getD (mkTracker 0, [])).2

/-- A single call on a tracker with `max_history = 2`. -/
def c5Run : Option (WTState × List Whale) :=
  check_for_new_whales (mkTracker 2) [wtA]

/-- State after that call. -/
def c5St : WTState := (c5Run.getD (mkTracker 0, [])).1

/-- Output of that call. -/
def c5Out : List Whale := (c5Run.getD (mkTracker 0, [])).2

/-- A single call feeding one hashless and one hashed trade. -/
def c10Run : Option (WTState × List Whale) :=
  check_for_new_whales (mkTracker 3) [wtNoHash, wtA]

/-- State after that call. -/
def c10St : WTState := (c10Run.getD (mkTracker 0, [])).1

/-- Output of that call. -/
def c10Out : List Whale := (c10Run.getD (mkTracker 0, [])).2

/-! # Theorems -/

/-- C1 (counterexample): `calculate_copy_size` has no floor at 0.  With
`copy_percentage = -10` (all other settings default) and the scenario
trade of size 100, it returns −10, which does not lie in
`[0, max_position_size]`. -/
theorem C1_counterexample :
    calculate_copy_size scnTrade { copy_percentage := -10 } = some (-10) ∧
    ¬ (0 ≤ (-10 : ℚ)) := by
  refine ⟨?_, by norm_num⟩
  norm_num [calculate_copy_size, getNum, pyFloat, scnTrade, min_def]

/-- C1 (amended): `calculate_copy_size` returns
`min (size × copy_percentage / 100) max_position_size` — clamped above
by `max_position_size` but with no lower clamp; the result lies in
`[0, max_position_size]` whenever the trade size, the copy percentage
and the cap are all non-negative (for a negative `copy_percentage`
override it can be negative). -/
theorem C1_theorem (trade : CTrade) (settings : CopySettings) (s : ℚ)
    (hs : getNum trade.size = some s) :
    calculate_copy_size trade settings =
      some (min (s * (settings.copy_percentage / 100)) settings.max_position_size) ∧
    (0 ≤ s → 0 ≤ settings.copy_percentage → 0 ≤ settings.max_position_size →
      0 ≤ min (s * (settings.copy_percentage / 100)) settings.max_position_size ∧
      min (s * (settings.copy_percentage / 100)) settings.max_position_size ≤
        settings.max_position_size) := by
  refine ⟨by simp [calculate_copy_size, hs], fun h1 h2 h3 => ?_⟩
  refine ⟨le_min (mul_nonneg h1 (div_nonneg h2 (by norm_num))) h3, min_le_right _ _⟩

/-- C1 (witness): the amended theorem applied to the scenario trade
(size 100, default settings). -/
theorem C1_witness :
    getNum scnTrade.size = some 100 ∧
    calculate_copy_size scnTrade scnSettings =
      some (min ((100 : ℚ) * (scnSettings.copy_percentage / 100))
        scnSettings.max_position_size) ∧
    (0 ≤ min ((100 : ℚ) * (scnSettings.copy_percentage / 100))
        scnSettings.max_position_size ∧
      min ((100 : ℚ) * (scnSettings.copy_percentage / 100))
        scnSettings.max_position_size ≤ scnSettings.max_position_size) := by
  have h := C1_theorem scnTrade scnSettings 100 (by decide)
  exact ⟨by decide, h.1,
    h.2 (by norm_num) (by norm_num [scnSettings]) (by norm_num [scnSettings])⟩

/-- C2 (counterexample): on the §8 scenario input — trade size 100 at
price 0.60, settings `copy_percentage = 10`, `max_position_size = 100`,
`min_trader_confidence = 10` — `calculate_copy_size` returns 10 (10 %
of 100 shares), not the 6 the claim expects. -/
theorem C2_counterexample :
    calculate_copy_size scnTrade scnSettings = some 10 ∧
    calculate_copy_size scnTrade scnSettings ≠ some 6 := by
  have h : calculate_copy_size scnTrade scnSettings = some 10 := by
    norm_num [calculate_copy_size, getNum, pyFloat, scnTrade, scnSettings, min_def]
  refine ⟨h, by rw [h]; norm_num⟩

/-- C2 (amended): on the scenario input, `should_copy_trade` is true
(notional 60 ≥ 10), `calculate_copy_size` is 10, and a successful
`copy_trade` submission raises `total_volume_copied` from 0 to
10 × 0.60 = 6. -/
theorem C2_theorem :
    should_copy_trade scnTrade scnSettings = some true ∧
    calculate_copy_size scnTrade scnSettings = some 10 ∧
    copy_trade (fun _ _ _ _ => .ok "filled") scnState "W" scnTrade =
      some (scnStateAfter, some (.success "filled" "W" scnTrade 10)) ∧
    (recordOf scnState "W").map (fun r => r.total_volume_copied) = some 0 ∧
    (recordOf scnStateAfter "W").map (fun r => r.total_volume_copied) = some 6 := by
  refine ⟨?_, ?_, ?_, ?_, ?_⟩
  · norm_num [should_copy_trade, getNum, pyFloat, scnTrade, scnSettings, CTrade.slugOf]
  · norm_num [calculate_copy_size, getNum, pyFloat, scnTrade, scnSettings, min_def]
  · norm_num [copy_trade, lookupAddr, scnState, follow_trader, mkCopyTrading,
      updateFollowing, should_copy_trade, calculate_copy_size, getNum, pyFloat,
      scnTrade, scnSettings, CTrade.slugOf, min_def, setRecord, scnStateAfter,
      scnRecord, List.find?]
  · norm_num [recordOf, lookupAddr, scnState, follow_trader, mkCopyTrading,
      updateFollowing, scnRecord, scnSettings, List.find?]
  · norm_num [recordOf, lookupAddr, scnStateAfter, scnRecord, scnSettings,
      List.find?]

/-- C9: the trader display name computed by `process_trade` at the
failing input.  Because Python parses `a or b or c if cond else d` as
`(a or b or c) if cond else d`, a trade carrying `name = "Alice"` but no
wallet displays `"Unknown"` — the explicit name does *not* win
regardless of the wallet field, contradicting the documented fallback
order name → pseudonym → abbreviated wallet.  When a wallet is present
the fallback chain behaves as documented. -/
theorem C9_theorem :
    (process_trade namedNoWalletTrade).map (fun w => w.trader) =
      some "Unknown" ∧
    (process_trade namedWalletTrade).map (fun w => w.trader) =
      some "Alice" ∧
    (process_trade walletOnlyTrade).map (fun w => w.trader) =
      some "0x1234...abcd" := by
  refine ⟨by decide, by decide, by decide⟩

/-- `setRecord` only touches the store, so dict lookups are unchanged. -/
theorem lookupAddr_setRecord (st : CTState) (a : Nat) (r : FollowData)
    (w : String) : lookupAddr (setRecord st a r) w = lookupAddr st w := rfl

/-- Mutating the record object at a wallet's address is visible through
the registry: `recordOf` reads back the mutated record. -/
theorem recordOf_setRecord (st : CTState) (w : String) (a : Nat)
    (ha : lookupAddr st w = some a) (hlen : a < st.store.length)
    (r : FollowData) : recordOf (setRecord st a r) w = some r := by
  unfold recordOf
  rw [lookupAddr_setRecord, ha]
  simp only [setRecord, Option.some_bind, List.get?_eq_getElem?]
  exact List.getElem?_set_eq_of_lt r hlen

/-- C6 (counterexample): `get_following_list` hands out the registry's
own record objects.  On the registry that follows wallet `"W"`, mutating
the record returned for `"W"` (setting `total_copied_trades := 42`)
changes what the registry itself stores for `"W"` — the claim that
registry state is unaffected fails. -/
theorem C6_counterexample :
    0 ∈ get_following_list scnState ∧
    recordOf (setRecord scnState 0
        { scnRecord with total_copied_trades := 42 }) "W" ≠
      recordOf scnState "W" := by
  refine ⟨by decide, by decide⟩

/-- C6 (amended): `get_following_list` returns a fresh list whose
elements are the registry's own `FollowRecord` objects, not value
copies: every wallet's registry address appears in the returned list,
and mutating the record at that address is observed by the registry's
own lookup. -/
theorem C6_theorem (st : CTState) (w : String) (a : Nat)
    (ha : lookupAddr st w = some a) (hlen : a < st.store.length)
    (r : FollowData) :
    a ∈ get_following_list st ∧
    recordOf (setRecord st a r) w = some r := by
  constructor
  · obtain ⟨pa, hfind, hpa⟩ := Option.map_eq_some'.mp ha
    exact List.mem_map.mpr ⟨pa, List.mem_of_find?_eq_some hfind, hpa⟩
  · exact recordOf_setRecord st w a ha hlen r

/-- C6 (witness): the amended theorem applied to the scenario registry
following wallet `"W"` at address 0. -/
theorem C6_witness :
    lookupAddr scnState "W" = some 0 ∧ 0 < scnState.store.length ∧
    0 ∈ get_following_list scnState ∧
    recordOf (setRecord scnState 0 default) "W" = some default := by
  have h := C6_theorem scnState "W" 0 (by decide) (by decide) default
  exact ⟨by decide, by decide, h.1, h.2⟩

/-- C3: behaviour of `copy_trade` once a trade has passed the should-copy
and positive-size checks.  If the order submission returns a response,
the follow record's counters advance by exactly one trade and
`copy_size × price` volume and a success result carrying the response,
the original trade and the copy size is returned; if the submission
raises, the state is returned unchanged (both counters exactly as
before, no retry) together with a failure result carrying the error and
the original trade. -/
theorem C3_theorem (placeOrder : String → ℚ → ℚ → String → OrderOutcome)
    (st : CTState) (w : String) (trade : CTrade) (a : Nat) (fd : FollowData)
    (ha : lookupAddr st w = some a) (hfd : st.store.get? a = some fd)
    (hsc : should_copy_trade trade fd.settings = some true)
    (cs p : ℚ) (hcs : calculate_copy_size trade fd.settings = some cs)
    (hpos : 0 < cs) (hp : getNum trade.price = some p) :
    (∀ resp,
      placeOrder (trade.asset.getD "") p cs (pyUpper (trade.side.getD "BUY")) =
        OrderOutcome.ok resp →
      copy_trade placeOrder st w trade =
        some (setRecord st a
          { fd with total_copied_trades := fd.total_copied_trades + 1,
                    total_volume_copied := fd.total_volume_copied + cs * p },
          some (CopyResult.success resp w trade cs)) ∧
      recordOf (setRecord st a
          { fd with total_copied_trades := fd.total_copied_trades + 1,
                    total_volume_copied := fd.total_volume_copied + cs * p }) w =
        some { fd with total_copied_trades := fd.total_copied_trades + 1,
                       total_volume_copied := fd.total_volume_copied + cs * p }) ∧
    (∀ e,
      placeOrder (trade.asset.getD "") p cs (pyUpper (trade.side.getD "BUY")) =
        OrderOutcome.exn e →
      copy_trade placeOrder st w trade =
        some (st, some (CopyResult.failure e w trade)) ∧
      recordOf st w = some fd) := by
  obtain ⟨hlen, -⟩ := List.get?_eq_some.mp hfd
  have hgetD : st.store.getD a default = fd := by
    rw [List.getD_eq_getElem?_getD, ← List.get?_eq_getElem?, hfd]
    rfl
  have hns : ¬ cs ≤ 0 := not_le.mpr hpos
  have key : copy_trade placeOrder st w trade =
      match placeOrder (trade.asset.getD "") p cs
          (pyUpper (trade.side.getD "BUY")) with
      | OrderOutcome.ok resp =>
          some (setRecord st a
            { fd with total_copied_trades := fd.total_copied_trades + 1,
                      total_volume_copied := fd.total_volume_copied + cs * p },
            some (CopyResult.success resp w trade cs))
      | OrderOutcome.exn e =>
          some (st, some (CopyResult.failure e w trade)) := by
    simp only [copy_trade, ha, hgetD, hsc, hcs, hp, Option.bind_eq_bind,
      Option.some_bind, Option.pure_def, not_true_eq_false, if_false, hns]
  have hrec : recordOf st w = some fd := by
    unfold recordOf
    rw [ha, Option.some_bind]
    exact hfd
  refine ⟨fun resp hresp => ?_, fun e he => ?_⟩
  · rw [hresp] at key
    exact ⟨key, recordOf_setRecord st w a ha hlen _⟩
  · rw [he] at key
    exact ⟨key, hrec⟩

/-- C3 (witness): the theorem applied to the scenario registry and
trade, once with a submission that succeeds and once with one that
raises. -/
theorem C3_witness :
    copy_trade (fun _ _ _ _ => OrderOutcome.exn "down") scnState "W" scnTrade =
      some (scnState, some (CopyResult.failure "down" "W" scnTrade)) ∧
    recordOf scnState "W" = some scnRecord := by
  have h := C3_theorem (fun _ _ _ _ => OrderOutcome.exn "down") scnState "W"
    scnTrade 0 scnRecord (by decide) (by decide)
    (by norm_num [should_copy_trade, getNum, pyFloat, scnTrade, scnRecord,
      scnSettings, CTrade.slugOf])
    10 (3/5)
    (by norm_num [calculate_copy_size, getNum, pyFloat, scnTrade, scnRecord,
      scnSettings, min_def])
    (by norm_num) rfl
  exact h.2 "down" rfl

/-- C7 (counterexample): a trade whose `size` field holds the
non-numeric string `"abc"` makes `should_copy_trade`,
`calculate_copy_size` and `process_trade` raise (Python
`float("abc")` raises `ValueError`) — malformed numeric fields are not
coerced to zero. -/
theorem C7_counterexample :
    should_copy_trade strSizeCTrade scnSettings = none ∧
    calculate_copy_size strSizeCTrade scnSettings = none ∧
    process_trade strSizeWTrade = none := by
  refine ⟨by decide, by decide, by decide⟩

/-- C7 (amended): *absent* `size`/`price` fields are coerced to zero
and the pipeline functions return normally (`calculate_copy_size`
yields `min 0 max_position_size`); but a *present malformed* value — a
string that does not parse as a number — makes the call raise. -/
theorem C7_theorem (ct : CTrade) (wt : WTrade) (settings : CopySettings)
    (h1 : ct.size = none) (h2 : ct.price = none)
    (h3 : wt.size = none) (h4 : wt.price = none) :
    (should_copy_trade ct settings).isSome ∧
    calculate_copy_size ct settings = some (min 0 settings.max_position_size) ∧
    (process_trade wt).isSome ∧
    (∀ s, strFloat s = none → settings.enabled = true →
      should_copy_trade { ct with size := some (.str s) } settings = none) := by
  refine ⟨?_, ?_, ?_, ?_⟩
  · by_cases he : settings.enabled
    · simp only [should_copy_trade, h1, h2, getNum, pyFloat, Option.getD_none, he,
        Option.bind_eq_bind, Option.some_bind, Option.pure_def, not_true_eq_false,
        if_false]
      split
      · rfl
      split
      · rfl
      split
      · rfl
      · rfl
    · simp [should_copy_trade, he]
  · simp [calculate_copy_size, h1, getNum, pyFloat]
  · simp [process_trade, h3, h4, getNum, pyFloat]
  · intro s hs he
    simp [should_copy_trade, he, getNum, pyFloat, hs]

/-- C7 (witness): the amended theorem applied to records with absent
`size`/`price` fields under default settings, plus its malformed-string
part at `"abc"`. -/
theorem C7_witness :
    (should_copy_trade {} scnSettings).isSome ∧
    calculate_copy_size {} scnSettings =
      some (min 0 scnSettings.max_position_size) ∧
    (process_trade {}).isSome ∧
    should_copy_trade { size := some (.str "abc") } scnSettings = none := by
  have h := C7_theorem {} {} scnSettings rfl rfl rfl rfl
  exact ⟨h.1, h.2.1, h.2.2.1, h.2.2.2 "abc" (by decide) (by decide)⟩

/-- C8 (counterexample): `run_monitor`'s `try` wraps the whole
`while True`, so with a first cycle that raises and a second that would
succeed, the monitor stops after one cycle — it is not still running
after two cycles as the claim requires. -/
theorem C8_counterexample :
    run_monitor_model [.exn "boom", .ok] = (.stopped "boom", 1) ∧
    run_monitor_model [.exn "boom", .ok] ≠ (.running, 2) := by
  refine ⟨by decide, by decide⟩

/-- C8 (amended): `run_monitor` repeats its poll–alert–sleep cycle as
long as no cycle body raises (it is still running after any all-ok
trace, having entered every cycle), but its exception handler sits
outside the `while`, so the first exception escaping a cycle body is
logged and terminates the loop with every later cycle unexecuted.
`monitor_trader`, whose handler is inside the `while`, logs each
exception and continues: it enters every cycle of any trace. -/
theorem C8_theorem :
    (∀ cycles, (∀ c ∈ cycles, c = CycleOutcome.ok) →
      run_monitor_model cycles = (MonitorEnd.running, cycles.length)) ∧
    (∀ pre e rest, (∀ c ∈ pre, c = CycleOutcome.ok) →
      run_monitor_model (pre ++ CycleOutcome.exn e :: rest) =
        (MonitorEnd.stopped e, pre.length + 1)) ∧
    (∀ cycles, monitor_trader_model cycles =
      (MonitorEnd.running, cycles.length)) := by
  refine ⟨?_, ?_, ?_⟩
  · intro cycles h
    induction cycles with
    | nil => rfl
    | cons c rest ih =>
        have hc : c = CycleOutcome.ok := h c (List.mem_cons_self c rest)
        subst hc
        have := ih (fun c hc => h c (List.mem_cons_of_mem _ hc))
        simp [run_monitor_model, this]
  · intro pre e rest h
    induction pre with
    | nil => rfl
    | cons c pre ih =>
        have hc : c = CycleOutcome.ok := h c (List.mem_cons_self c pre)
        subst hc
        have := ih (fun c hc => h c (List.mem_cons_of_mem _ hc))
        simp only [List.cons_append, run_monitor_model, List.append_eq, this,
          List.length_cons]
  · intro cycles
    induction cycles with
    | nil => rfl
    | cons c rest ih => simp [monitor_trader_model, ih]

/-- C8 (witness): the amended theorem applied to the traces
`[ok, ok]` (all cycles succeed) and `[ok, exn "boom", ok]` (the second
cycle raises). -/
theorem C8_witness :
    run_monitor_model [CycleOutcome.ok, CycleOutcome.ok] =
      (MonitorEnd.running, 2) ∧
    run_monitor_model [CycleOutcome.ok, CycleOutcome.exn "boom",
      CycleOutcome.ok] = (MonitorEnd.stopped "boom", 2) ∧
    monitor_trader_model [CycleOutcome.ok, CycleOutcome.exn "boom",
      CycleOutcome.ok] = (MonitorEnd.running, 3) := by
  have h := C8_theorem
  refine ⟨h.1 [CycleOutcome.ok, CycleOutcome.ok] (by decide), ?_,
    h.2.2 [CycleOutcome.ok, CycleOutcome.exn "boom", CycleOutcome.ok]⟩
  have h2 := h.2.1 [CycleOutcome.ok] "boom" [CycleOutcome.ok] (by decide)
  simpa using h2

/-! ## Whale tracker : deduplication, history bound, hashless drops -/

/-- Membership in the seen-set after an insertion. -/
theorem mem_addSeen {s : List String} {tx x : String} :
    x ∈ addSeen s tx ↔ x = tx ∨ x ∈ s := by
  unfold addSeen
  split
  · rename_i h
    exact ⟨fun hx => Or.inr hx, fun hx => hx.elim (fun e => e ▸ h) id⟩
  · simp [List.mem_cons]

/-- `process_trade` carries the raw trade's transaction identity over to
the processed whale record unchanged. -/
theorem process_trade_hash {t : WTrade} {w : Whale}
    (h : process_trade t = some w) : whaleHash w = rawHash t := by
  unfold process_trade at h
  cases hs : getNum t.size with
  | none => rw [hs] at h; simp at h
  | some s =>
      cases hp : getNum t.price with
      | none => rw [hs, hp] at h; simp at h
      | some p =>
          rw [hs, hp] at h
          simp only [Option.bind_eq_bind, Option.some_bind,
            Option.some.injEq] at h
          subst h
          rfl

/-- Closed form of one loop iteration of `check_for_new_whales`. -/
theorem cfnwStep_eq (st : WTState) (acc : List Whale) (t : WTrade) :
    cfnwStep (st, acc) t =
      if rawHash t ≠ "" ∧ rawHash t ∉ st.seen_transactions then
        (process_trade t).bind (fun pw =>
          some ({ st with
              seen_transactions := addSeen st.seen_transactions (rawHash t)
              whale_trades :=
                trimHistory (pw :: st.whale_trades) st.max_history },
            acc ++ [pw]))
      else some (st, acc) := rfl

/-- The trimmed history always fits the bound: `[:max]` caps an
over-long list and a list within the bound is untouched. -/
theorem trimHistory_length_le (l : List Whale) (m : Nat) :
    (trimHistory l m).length ≤ m := by
  unfold trimHistory
  split
  · simp
  · rename_i hlt
    exact Nat.le_of_not_lt hlt

/-- Trimmed histories only contain entries of the untrimmed history. -/
theorem trimHistory_subset (l : List Whale) (m : Nat) :
    trimHistory l m ⊆ l := by
  unfold trimHistory
  split
  · exact List.take_subset m l
  · exact fun x hx => hx

/-- Invariants of the `check_for_new_whales` iteration, over any suffix
of the batch: the seen-set grows monotonically, and the trades appended
to the accumulator are exactly the fresh ones — pairwise-distinct
identities, each newly recorded as seen, none previously seen, none
empty. -/
theorem cfnwFold_spec (trades : List WTrade) :
    ∀ (st : WTState) (acc : List Whale) (st' : WTState) (out : List Whale),
      trades.foldlM cfnwStep (st, acc) = some (st', out) →
      (∀ x ∈ st.seen_transactions, x ∈ st'.seen_transactions) ∧
      ∃ fresh, out = acc ++ fresh ∧
        (fresh.map whaleHash).Nodup ∧
        ∀ w ∈ fresh, whaleHash w ∈ st'.seen_transactions ∧
          whaleHash w ∉ st.seen_transactions ∧ whaleHash w ≠ "" := by
  induction trades with
  | nil =>
      intro st acc st' out h
      simp only [List.foldlM_nil, Option.some.injEq, Prod.mk.injEq] at h
      obtain ⟨rfl, rfl⟩ := h
      exact ⟨fun x hx => hx, [], by simp, List.nodup_nil, by simp⟩
  | cons t ts ih =>
      intro st acc st' out h
      have hcons : (t :: ts).foldlM cfnwStep (st, acc) =
          cfnwStep (st, acc) t >>= fun mid => ts.foldlM cfnwStep mid := rfl
      rw [hcons] at h
      cases hstep : cfnwStep (st, acc) t with
      | none => rw [hstep] at h; simp at h
      | some mid =>
          rw [hstep] at h
          simp only [Option.bind_eq_bind, Option.some_bind] at h
          obtain ⟨st₁, acc₁⟩ := mid
          rw [cfnwStep_eq] at hstep
          by_cases hc : rawHash t ≠ "" ∧ rawHash t ∉ st.seen_transactions
          · rw [if_pos hc] at hstep
            cases hpt : process_trade t with
            | none => rw [hpt] at hstep; simp at hstep
            | some pw =>
                rw [hpt, Option.some_bind, Option.some.injEq,
                  Prod.mk.injEq] at hstep
                obtain ⟨hst₁, hacc₁⟩ := hstep
                obtain ⟨mono, fresh, hout, hnd, hmem⟩ := ih st₁ acc₁ st' out h
                have hhash : whaleHash pw = rawHash t := process_trade_hash hpt
                have hseen₁ : ∀ x ∈ st.seen_transactions,
                    x ∈ st₁.seen_transactions := by
                  intro x hx
                  rw [← hst₁]
                  exact mem_addSeen.mpr (Or.inr hx)
                have htx₁ : rawHash t ∈ st₁.seen_transactions := by
                  rw [← hst₁]
                  exact mem_addSeen.mpr (Or.inl rfl)
                refine ⟨fun x hx => mono x (hseen₁ x hx), pw :: fresh, ?_, ?_, ?_⟩
                · rw [hout, ← hacc₁]
                  simp
                · refine List.nodup_cons.mpr ⟨?_, hnd⟩
                  rw [List.mem_map]
                  rintro ⟨w, hw, hww⟩
                  have := (hmem w hw).2.1
                  rw [hww, hhash] at this
                  exact this htx₁
                · intro w hw
                  rcases List.mem_cons.mp hw with rfl | hw
                  · exact ⟨by rw [hhash]; exact mono _ htx₁,
                      by rw [hhash]; exact hc.2, by rw [hhash]; exact hc.1⟩
                  · obtain ⟨h1, h2, h3⟩ := hmem w hw
                    exact ⟨h1, fun hws => h2 (hseen₁ _ hws), h3⟩
          · rw [if_neg hc, Option.some.injEq, Prod.mk.injEq] at hstep
            obtain ⟨rfl, rfl⟩ := hstep
            exact ih st acc st' out h

/-- The `check_for_new_whales` iteration preserves the history bound and
never changes `max_history`. -/
theorem cfnwFold_hist_bound (trades : List WTrade) :
    ∀ (st : WTState) (acc : List Whale) (st' : WTState) (out : List Whale),
      trades.foldlM cfnwStep (st, acc) = some (st', out) →
      st.whale_trades.length ≤ st.max_history →
      st'.whale_trades.length ≤ st'.max_history ∧
      st'.max_history = st.max_history := by
  induction trades with
  | nil =>
      intro st acc st' out h hb
      simp only [List.foldlM_nil, Option.some.injEq, Prod.mk.injEq] at h
      obtain ⟨rfl, rfl⟩ := h
      exact ⟨hb, rfl⟩
  | cons t ts ih =>
      intro st acc st' out h hb
      have hcons : (t :: ts).foldlM cfnwStep (st, acc) =
          cfnwStep (st, acc) t >>= fun mid => ts.foldlM cfnwStep mid := rfl
      rw [hcons] at h
      cases hstep : cfnwStep (st, acc) t with
      | none => rw [hstep] at h; simp at h
      | some mid =>
          rw [hstep] at h
          simp only [Option.bind_eq_bind, Option.some_bind] at h
          obtain ⟨st₁, acc₁⟩ := mid
          rw [cfnwStep_eq] at hstep
          by_cases hc : rawHash t ≠ "" ∧ rawHash t ∉ st.seen_transactions
          · rw [if_pos hc] at hstep
            cases hpt : process_trade t with
            | none => rw [hpt] at hstep; simp at hstep
            | some pw =>
                rw [hpt, Option.some_bind, Option.some.injEq,
                  Prod.mk.injEq] at hstep
                obtain ⟨hst₁, -⟩ := hstep
                have hb₁ : st₁.whale_trades.length ≤ st₁.max_history := by
                  rw [← hst₁]
                  exact trimHistory_length_le _ _
                have hmax₁ : st₁.max_history = st.max_history := by
                  rw [← hst₁]
                obtain ⟨h1, h2⟩ := ih st₁ acc₁ st' out h hb₁
                exact ⟨h1, h2.trans hmax₁⟩
          · rw [if_neg hc, Option.some.injEq, Prod.mk.injEq] at hstep
            obtain ⟨rfl, rfl⟩ := hstep
            exact ih st acc st' out h hb

/-- An option known to hold a value equals `some` of its default-read. -/
theorem eq_some_getD {α : Type} (o : Option α) (d : α) (h : o.isSome) :
    o = some (o.getD d) := by
  cases o with
  | none => simp at h
  | some a => rfl

set_option maxRecDepth 1000000 in
/-- C5: the history buffer bound.  (1) For any `max_history`, any state
whose history is within the bound still is after any
`check_for_new_whales` call, and the bound itself never changes.
(2) With `max_history = 100`, after the 150 unique whale trades are
processed one at a time from a fresh tracker, `get_recent_whales 1000`
returns exactly 100 entries, and they are the most recent 100 trades
in most-recent-first order. -/
theorem C5_theorem :
    (∀ (st : WTState) (trades : List WTrade) (st' : WTState) (out : List Whale),
      check_for_new_whales st trades = some (st', out) →
      st.whale_trades.length ≤ st.max_history →
      st'.whale_trades.length ≤ st'.max_history ∧
      st'.max_history = st.max_history) ∧
    (processOneAtATime (mkTracker 100) scnWhales150).map
      (fun st => (get_recent_whales st 1000).length) = some 100 ∧
    (processOneAtATime (mkTracker 100) scnWhales150).map
      (fun st => (get_recent_whales st 1000).map whaleHash) =
      some ((scnWhales150.map rawHash).reverse.take 100) := by
  refine ⟨fun st trades st' out h hb =>
    cfnwFold_hist_bound trades st [] st' out h hb, ?_, ?_⟩
  · decide
  · decide

/-- C5 (witness): the bound-preservation part applied to one call on a
tracker with `max_history = 2`. -/
theorem C5_witness :
    check_for_new_whales (mkTracker 2) [wtA] = some (c5St, c5Out) ∧
    (mkTracker 2).whale_trades.length ≤ (mkTracker 2).max_history ∧
    c5St.whale_trades.length ≤ c5St.max_history ∧
    c5St.max_history = (mkTracker 2).max_history := by
  have hrun : check_for_new_whales (mkTracker 2) [wtA] =
      some (c5St, c5Out) := eq_some_getD _ (mkTracker 0, []) (by decide)
  have h := C5_theorem.1 (mkTracker 2) [wtA] c5St c5Out hrun (by decide)
  exact ⟨hrun, by decide, h.1, h.2⟩

/-- Invariants of a sequence of `check_for_new_whales` calls: the
seen-set only grows, the transaction identities returned across all
calls are pairwise distinct, and each is recorded as seen at the end
and was unseen at the start. -/
theorem runBatches_spec (bs : List (List WTrade)) :
    ∀ (st st'' : WTState) (outs : List (List Whale)),
      runBatches st bs = some (st'', outs) →
      (∀ x ∈ st.seen_transactions, x ∈ st''.seen_transactions) ∧
      (outs.flatten.map whaleHash).Nodup ∧
      ∀ w ∈ outs.flatten, whaleHash w ∈ st''.seen_transactions ∧
        whaleHash w ∉ st.seen_transactions := by
  induction bs with
  | nil =>
      intro st st'' outs h
      simp only [runBatches, Option.some.injEq, Prod.mk.injEq] at h
      obtain ⟨rfl, rfl⟩ := h
      exact ⟨fun x hx => hx, by simp, by simp⟩
  | cons b bs ih =>
      intro st st'' outs h
      simp only [runBatches, Option.bind_eq_bind] at h
      cases h1 : check_for_new_whales st b with
      | none => rw [h1] at h; simp at h
      | some r =>
          obtain ⟨st₁, out₁⟩ := r
          rw [h1] at h
          simp only [Option.some_bind] at h
          cases h2 : runBatches st₁ bs with
          | none => rw [h2] at h; simp at h
          | some r2 =>
              obtain ⟨st₂, outs₂⟩ := r2
              rw [h2] at h
              simp only [Option.some_bind, Option.some.injEq,
                Prod.mk.injEq] at h
              obtain ⟨rfl, rfl⟩ := h
              obtain ⟨mono₁, fresh, hfr, hnd₁, hmem₁⟩ :=
                cfnwFold_spec b st [] st₁ out₁ h1
              simp only [List.nil_append] at hfr
              subst hfr
              obtain ⟨mono₂, hnd₂, hmem₂⟩ := ih st₁ _ _ h2
              refine ⟨fun x hx => mono₂ x (mono₁ x hx), ?_, ?_⟩
              · rw [List.flatten_cons, List.map_append]
                refine List.nodup_append.mpr ⟨hnd₁, hnd₂, ?_⟩
                intro x hx₁ hx₂
                obtain ⟨w₁, hw₁, rfl⟩ := List.mem_map.mp hx₁
                obtain ⟨w₂, hw₂, heq⟩ := List.mem_map.mp hx₂
                exact (hmem₂ w₂ hw₂).2 (heq ▸ (hmem₁ w₁ hw₁).1)
              · intro w hw
                rw [List.flatten_cons, List.mem_append] at hw
                rcases hw with hw | hw
                · exact ⟨mono₂ _ (hmem₁ w hw).1, (hmem₁ w hw).2.1⟩
                · exact ⟨(hmem₂ w hw).1, fun hx => (hmem₂ w hw).2 (mono₁ _ hx)⟩

/-- C4: across any sequence of fetched batches, the transaction
identities returned by the calls to `check_for_new_whales` are globally
duplicate-free — no identity appears twice within one call or in two
different calls, however often the feed repeats it — each call's list
is duplicate-free on its own, and every returned identity is recorded
in the final seen-set. -/
theorem C4_theorem (st : WTState) (bs : List (List WTrade)) (st'' : WTState)
    (outs : List (List Whale)) (h : runBatches st bs = some (st'', outs)) :
    (outs.flatten.map whaleHash).Nodup ∧
    (∀ out ∈ outs, (out.map whaleHash).Nodup) ∧
    (∀ out ∈ outs, ∀ w ∈ out, whaleHash w ∈ st''.seen_transactions) := by
  obtain ⟨-, hnd, hmem⟩ := runBatches_spec bs st st'' outs h
  refine ⟨hnd, ?_, ?_⟩
  · intro out hout
    exact hnd.sublist ((List.sublist_flatten_of_mem hout).map whaleHash)
  · intro out hout w hw
    exact (hmem w (List.mem_flatten.mpr ⟨out, hout, hw⟩)).1

/-- C4 (witness): the theorem applied to two batches in which the feed
delivers trade `wtA` three times; the two calls return `wtA` once in
total, plus `wtB`. -/
theorem C4_witness :
    runBatches (mkTracker 100) c4Batches = some (c4St, c4Outs) ∧
    (c4Outs.flatten.map whaleHash).Nodup ∧
    ∀ out ∈ c4Outs, ∀ w ∈ out, whaleHash w ∈ c4St.seen_transactions := by
  have hrun : runBatches (mkTracker 100) c4Batches =
      some (c4St, c4Outs) := eq_some_getD _ (mkTracker 0, []) (by decide)
  have h := C4_theorem (mkTracker 100) c4Batches c4St c4Outs hrun
  exact ⟨hrun, h.1, h.2.2⟩

/-- Trades with an absent or empty `transactionHash` are invisible to
the iteration: filtering them from the batch changes nothing. -/
theorem cfnwFold_filter (trades : List WTrade) :
    ∀ (st : WTState) (acc : List Whale),
      trades.foldlM cfnwStep (st, acc) =
        (trades.filter (fun t => rawHash t ≠ "")).foldlM cfnwStep (st, acc) := by
  induction trades with
  | nil => intro st acc; rfl
  | cons t ts ih =>
      intro st acc
      by_cases hc : rawHash t = ""
      · have hfil : (t :: ts).filter (fun t => rawHash t ≠ "") =
            ts.filter (fun t => rawHash t ≠ "") := by
          simp [List.filter_cons, hc]
        have hstep : cfnwStep (st, acc) t = some (st, acc) := by
          rw [cfnwStep_eq, if_neg]
          simp [hc]
        have hcons : (t :: ts).foldlM cfnwStep (st, acc) =
            cfnwStep (st, acc) t >>= fun mid => ts.foldlM cfnwStep mid := rfl
        rw [hfil, hcons, hstep]
        simp only [Option.bind_eq_bind, Option.some_bind]
        exact ih st acc
      · have hfil : (t :: ts).filter (fun t => rawHash t ≠ "") =
            t :: ts.filter (fun t => rawHash t ≠ "") := by
          simp [List.filter_cons, hc]
        have hcons : (t :: ts).foldlM cfnwStep (st, acc) =
            cfnwStep (st, acc) t >>= fun mid => ts.foldlM cfnwStep mid := rfl
        have hcons' : (t :: ts.filter (fun t => rawHash t ≠ "")).foldlM
            cfnwStep (st, acc) =
            cfnwStep (st, acc) t >>= fun mid =>
              (ts.filter (fun t => rawHash t ≠ "")).foldlM cfnwStep mid := rfl
        rw [hfil, hcons, hcons']
        cases hstep : cfnwStep (st, acc) t with
        | none => rfl
        | some mid =>
            obtain ⟨st₁, acc₁⟩ := mid
            simp only [Option.bind_eq_bind, Option.some_bind]
            exact ih st₁ acc₁

/-- After any iteration run, every history entry and every seen
identity is either inherited from the starting state or non-empty. -/
theorem cfnwFold_no_empty (trades : List WTrade) :
    ∀ (st : WTState) (acc : List Whale) (st' : WTState) (out : List Whale),
      trades.foldlM cfnwStep (st, acc) = some (st', out) →
      (∀ w ∈ st'.whale_trades, w ∈ st.whale_trades ∨ whaleHash w ≠ "") ∧
      (∀ x ∈ st'.seen_transactions, x ∈ st.seen_transactions ∨ x ≠ "") := by
  induction trades with
  | nil =>
      intro st acc st' out h
      simp only [List.foldlM_nil, Option.some.injEq, Prod.mk.injEq] at h
      obtain ⟨rfl, rfl⟩ := h
      exact ⟨fun w hw => Or.inl hw, fun x hx => Or.inl hx⟩
  | cons t ts ih =>
      intro st acc st' out h
      have hcons : (t :: ts).foldlM cfnwStep (st, acc) =
          cfnwStep (st, acc) t >>= fun mid => ts.foldlM cfnwStep mid := rfl
      rw [hcons] at h
      cases hstep : cfnwStep (st, acc) t with
      | none => rw [hstep] at h; simp at h
      | some mid =>
          rw [hstep] at h
          simp only [Option.bind_eq_bind, Option.some_bind] at h
          obtain ⟨st₁, acc₁⟩ := mid
          rw [cfnwStep_eq] at hstep
          by_cases hc : rawHash t ≠ "" ∧ rawHash t ∉ st.seen_transactions
          · rw [if_pos hc] at hstep
            cases hpt : process_trade t with
            | none => rw [hpt] at hstep; simp at hstep
            | some pw =>
                rw [hpt, Option.some_bind, Option.some.injEq,
                  Prod.mk.injEq] at hstep
                obtain ⟨hst₁, -⟩ := hstep
                obtain ⟨ih1, ih2⟩ := ih st₁ acc₁ st' out h
                have hhash : whaleHash pw = rawHash t := process_trade_hash hpt
                constructor
                · intro w hw
                  rcases ih1 w hw with hw₁ | hne
                  · rw [← hst₁] at hw₁
                    have := trimHistory_subset _ _ hw₁
                    rcases List.mem_cons.mp this with rfl | hold
                    · exact Or.inr (by rw [hhash]; exact hc.1)
                    · exact Or.inl hold
                  · exact Or.inr hne
                · intro x hx
                  rcases ih2 x hx with hx₁ | hne
                  · rw [← hst₁] at hx₁
                    rcases mem_addSeen.mp hx₁ with rfl | hold
                    · exact Or.inr hc.1
                    · exact Or.inl hold
                  · exact Or.inr hne
          · rw [if_neg hc, Option.some.injEq, Prod.mk.injEq] at hstep
            obtain ⟨rfl, rfl⟩ := hstep
            exact ih st acc st' out h

/-- C10: a fetched trade whose `transactionHash` is missing or empty is
silently dropped by `check_for_new_whales` on every call, whatever its
size, price or value: the call behaves exactly as if those trades were
not in the batch, the returned whales all carry non-empty identities,
and nothing hashless is ever added to the history buffer or the
seen-set. -/
theorem C10_theorem (st : WTState) (trades : List WTrade) :
    check_for_new_whales st trades =
      check_for_new_whales st (trades.filter (fun t => rawHash t ≠ "")) ∧
    ∀ st' out, check_for_new_whales st trades = some (st', out) →
      (∀ w ∈ out, whaleHash w ≠ "") ∧
      (∀ w ∈ st'.whale_trades, w ∈ st.whale_trades ∨ whaleHash w ≠ "") ∧
      (∀ x ∈ st'.seen_transactions, x ∈ st.seen_transactions ∨ x ≠ "") := by
  refine ⟨cfnwFold_filter trades st [], fun st' out h => ?_⟩
  obtain ⟨-, fresh, hfr, -, hmem⟩ := cfnwFold_spec trades st [] st' out h
  simp only [List.nil_append] at hfr
  subst hfr
  obtain ⟨h1, h2⟩ := cfnwFold_no_empty trades st [] st' out h
  exact ⟨fun w hw => (hmem w hw).2.2, h1, h2⟩

/-- C10 (witness): the theorem's conditional part applied to a batch
holding one hashless trade of value 81000 and one hashed trade; only
the hashed one comes back. -/
theorem C10_witness :
    check_for_new_whales (mkTracker 3) [wtNoHash, wtA] =
      some (c10St, c10Out) ∧
    (∀ w ∈ c10Out, whaleHash w ≠ "") ∧
    (∀ x ∈ c10St.seen_transactions,
      x ∈ (mkTracker 3).seen_transactions ∨ x ≠ "") := by
  have hrun : check_for_new_whales (mkTracker 3) [wtNoHash, wtA] =
      some (c10St, c10Out) := eq_some_getD _ (mkTracker 0, []) (by decide)
  have h := (C10_theorem (mkTracker 3) [wtNoHash, wtA]).2 c10St c10Out hrun
  exact ⟨hrun, h.1, h.2.2⟩

end PolyCore
